import Mathlib

set_option exponentiation.threshold 2000

/-!
Verification development for the Soundboard audio-processing core.

The Python sources are shallowly embedded:
* Python `float` values are modelled exactly by `PyFloat`
  (a rational for finite doubles, plus the non-finite values `inf`,
  `-inf`, `nan`); the embedding keeps the exact-arithmetic behaviour of
  the code and models the special values' comparison rules explicitly.
* Dynamically typed dictionary values (`dict.get`) are modelled by
  `PyVal`; a dictionary is a function `String → Option PyVal`.
* `numpy` arrays are lists of rationals; `astype` to an integer dtype
  truncates toward zero (`ratTrunc`).
* The envelope/gain loop of the compressor engine works over real
  numbers, since it uses `exp`/`log10`.
-/

/-- Model of a Python `float`: a finite double (kept exact as a rational)
or one of the non-finite values. -/
inductive PyFloat where
  | finite (q : ℚ)
  | inf
  | neginf
  | nan
deriving DecidableEq, Repr

/-- Python `<` on floats: any comparison involving `nan` is false. -/
def PyFloat.lt : PyFloat → PyFloat → Bool
  | .finite p, .finite q => decide (p < q)
  | .finite _, .inf => true
  | .neginf, .finite _ => true
  | .neginf, .inf => true
  | _, _ => false

/-- Python `<=` on floats: any comparison involving `nan` is false. -/
def PyFloat.le : PyFloat → PyFloat → Bool
  | .finite p, .finite q => decide (p ≤ q)
  | .finite _, .inf => true
  | .neginf, .finite _ => true
  | .neginf, .inf => true
  | .neginf, .neginf => true
  | .inf, .inf => true
  | _, _ => false

/-- Python `max(a, x)` on two floats: returns `x` exactly when `x > a`.
This mirrors CPython's `max`, which keeps the first argument unless a
later one compares strictly greater (so `max(1.0, nan) = 1.0`). -/
def PyFloat.pymax (a x : PyFloat) : PyFloat :=
  if PyFloat.lt a x then x else a

/-- Truncation toward zero, the behaviour of Python `int(float)` and of
`numpy` `astype` from float to an integer dtype. -/
def ratTrunc (q : ℚ) : ℤ :=
  if q < 0 then ⌈q⌉ else ⌊q⌋

/-- Model of a dynamically typed Python value stored in a settings
dictionary.  `obj truthy` stands for any other object, remembering only
its truth value. -/
inductive PyVal where
  | none
  | bool (b : Bool)
  | int (z : ℤ)
  | float (f : PyFloat)
  | str (s : String)
  | obj (truthy : Bool)
deriving DecidableEq, Repr

/-- Python truthiness, as used by `bool(...)`. -/
def PyVal.toBool : PyVal → Bool
  | .none => false
  | .bool b => b
  | .int z => decide (z ≠ 0)
  | .float (.finite q) => decide (q ≠ 0)
  | .float _ => true
  | .str s => decide (s ≠ "")
  | .obj t => t

/-- A Python number: an `int` (booleans are `int` subclasses and convert
to `0`/`1`) or a `float`. -/
inductive PyNum where
  | int (z : ℤ)
  | float (f : PyFloat)
deriving DecidableEq, Repr

/-- `isinstance(value, (int, float))` test of `_num`, returning the value
as a number when it passes.  Booleans pass (`bool` subclasses `int`). -/
def PyVal.asNum : PyVal → Option PyNum
  | .bool b => some (.int (if b then 1 else 0))
  | .int z => some (.int z)
  | .float f => some (.float f)
  | _ => Option.none

/-- `audio_models._num(value, fallback)`: keep the value when it is an
`int`/`float` instance, otherwise use the fallback.  The first argument
is the result of `dict.get(key)` (`none` when the key is absent, which
Python renders as the non-numeric value `None`). -/
def pyNum (value : Option PyVal) (fallback : PyNum) : PyNum :=
  match value with
  | some v => (v.asNum).getD fallback
  | Option.none => fallback

/-- The smallest magnitude at which CPython `float(int)` raises
`OverflowError`: ints of magnitude at least `2 ^ 1024 - 2 ^ 970` round
to infinity in double precision (`float(2 ** 1024 - 2 ** 970)` raises,
one less converts to the largest finite double). -/
def floatOverflowBound : ℕ := 2 ^ 1024 - 2 ^ 970

/-- Python `float(...)` applied to a number.  Converting an `int` whose
magnitude is at least `floatOverflowBound` raises `OverflowError`;
smaller ints convert (kept exact here — the model ignores double
rounding, not the error path); floats pass through unchanged. -/
def PyNum.toFloat : PyNum → Except String PyFloat
  | .int z => if floatOverflowBound ≤ z.natAbs then .error "OverflowError"
              else .ok (.finite z)
  | .float f => .ok f

/-- Python `int(...)` applied to a number: floats truncate toward zero,
but `int(inf)` raises `OverflowError` and `int(nan)` raises
`ValueError`. -/
def PyNum.toInt : PyNum → Except String ℤ
  | .int z => .ok z
  | .float (.finite q) => .ok (ratTrunc q)
  | .float .inf => .error "OverflowError"
  | .float .neginf => .error "OverflowError"
  | .float .nan => .error "ValueError"

/-- `audio_models.CompressorSettings`. -/
structure CompressorSettings where
  enabled : Bool
  input_gain_db : PyFloat
  threshold_db : PyFloat
  ratio : PyFloat
  attack_ms : PyFloat
  release_ms : PyFloat
  makeup_gain_db : PyFloat
  output_ceiling_db : PyFloat
  cache_max_items : ℤ
  revision : ℤ
deriving DecidableEq, Repr

/-- `audio_models.DEFAULT_COMPRESSOR_SETTINGS`. -/
def DEFAULT_COMPRESSOR_SETTINGS : CompressorSettings where
  enabled := true
  input_gain_db := .finite 0
  threshold_db := .finite (-18)
  ratio := .finite 4
  attack_ms := .finite 10
  release_ms := .finite 120
  makeup_gain_db := .finite 0
  output_ceiling_db := .finite (-1)
  cache_max_items := 32
  revision := 0

/-- A settings dictionary: maps a key to its stored value, `none` when
the key is absent. -/
abbrev SettingsDict : Type := String → Option PyVal

/-- `audio_models.compressor_settings_from_dict`.  The result is in
`Except` because Python `float(...)` raises on out-of-range ints and
`int(...)` raises on non-finite floats; fields are evaluated in source
order. -/
def compressor_settings_from_dict (data : SettingsDict) :
    Except String CompressorSettings := do
  let s := DEFAULT_COMPRESSOR_SETTINGS
  let enabled :=
    match data "compressor_enabled" with
    | some v => v.toBool
    | Option.none => s.enabled
  let input_gain_db ←
    (pyNum (data "compressor_input_gain_db") (.float s.input_gain_db)).toFloat
  let threshold_db ←
    (pyNum (data "compressor_threshold_db") (.float s.threshold_db)).toFloat
  let ratio0 ← (pyNum (data "compressor_ratio") (.float s.ratio)).toFloat
  let ratio := PyFloat.pymax (.finite 1) ratio0
  let attack0 ← (pyNum (data "compressor_attack_ms") (.float s.attack_ms)).toFloat
  let attack_ms := PyFloat.pymax (.finite 1) attack0
  let release0 ← (pyNum (data "compressor_release_ms") (.float s.release_ms)).toFloat
  let release_ms := PyFloat.pymax (.finite 1) release0
  let makeup_gain_db ←
    (pyNum (data "compressor_makeup_gain_db") (.float s.makeup_gain_db)).toFloat
  let output_ceiling_db ←
    (pyNum (data "compressor_output_ceiling_db") (.float s.output_ceiling_db)).toFloat
  let cmi ← (pyNum (data "compressor_cache_max_items") (.int s.cache_max_items)).toInt
  let rv ← (pyNum (data "compressor_revision") (.int s.revision)).toInt
  .ok
    { enabled := enabled
      input_gain_db := input_gain_db
      threshold_db := threshold_db
      ratio := ratio
      attack_ms := attack_ms
      release_ms := release_ms
      makeup_gain_db := makeup_gain_db
      output_ceiling_db := output_ceiling_db
      cache_max_items := max 1 cmi
      revision := max 0 rv }

/-- `audio_models.compressor_settings_to_dict`. -/
def compressor_settings_to_dict (s : CompressorSettings) : SettingsDict := fun k =>
  if k = "compressor_enabled" then some (.bool s.enabled)
  else if k = "compressor_input_gain_db" then some (.float s.input_gain_db)
  else if k = "compressor_threshold_db" then some (.float s.threshold_db)
  else if k = "compressor_ratio" then some (.float s.ratio)
  else if k = "compressor_attack_ms" then some (.float s.attack_ms)
  else if k = "compressor_release_ms" then some (.float s.release_ms)
  else if k = "compressor_makeup_gain_db" then some (.float s.makeup_gain_db)
  else if k = "compressor_output_ceiling_db" then some (.float s.output_ceiling_db)
  else if k = "compressor_cache_max_items" then some (.int s.cache_max_items)
  else if k = "compressor_revision" then some (.int s.revision)
  else Option.none

/-! ### `audio_cache.ProcessedSoundCache`

An `OrderedDict` is modelled as an association list in recency order:
the head is the least-recently-used entry, the last element the
most-recently-used one.  Keys are unique (dictionary semantics). -/

/-- State of `audio_cache.ProcessedSoundCache`. -/
structure ProcessedSoundCache (K V : Type) where
  max_items : ℕ
  store : List (K × V)
deriving DecidableEq, Repr

variable {K V : Type} [DecidableEq K]

/-- `ProcessedSoundCache.__init__`: `max_items = max(1, int(max_items))`,
empty ordered dict. -/
def ProcessedSoundCache.mk' (max_items : ℤ) : ProcessedSoundCache K V :=
  { max_items := (max 1 max_items).toNat, store := [] }

/-- `OrderedDict.get(key)`: the stored value, if present. -/
def storeLookup (store : List (K × V)) (key : K) : Option V :=
  (store.find? (fun p => p.1 = key)).map (fun p => p.2)

/-- `OrderedDict.move_to_end(key)` combined with storing `value` under
`key`: every entry for `key` is removed and `(key, value)` is appended at
the most-recently-used end. -/
def moveToEnd (store : List (K × V)) (key : K) (value : V) : List (K × V) :=
  store.filter (fun p => ¬ p.1 = key) ++ [(key, value)]

/-- The `while len(store) > max_items: popitem(last=False)` eviction
loop: drops entries from the least-recently-used (front) end until the
size is within capacity. -/
def evictLoop (max_items : ℕ) : List (K × V) → List (K × V)
  | [] => []
  | p :: rest =>
    if max_items < (p :: rest).length then evictLoop max_items rest
    else p :: rest

/-- `ProcessedSoundCache.get`: returns the cached value and the updated
cache (a hit moves the entry to the most-recently-used end). -/
def ProcessedSoundCache.get (c : ProcessedSoundCache K V) (key : K) :
    Option V × ProcessedSoundCache K V :=
  match storeLookup c.store key with
  | Option.none => (Option.none, c)
  | some v => (some v, { c with store := moveToEnd c.store key v })

/-- `ProcessedSoundCache.put`: insert/overwrite, move to the
most-recently-used end, then evict from the least-recently-used end
while over capacity. -/
def ProcessedSoundCache.put (c : ProcessedSoundCache K V) (key : K) (value : V) :
    ProcessedSoundCache K V :=
  { c with store := evictLoop c.max_items (moveToEnd c.store key value) }

/-- `ProcessedSoundCache.clear`. -/
def ProcessedSoundCache.clear (c : ProcessedSoundCache K V) : ProcessedSoundCache K V :=
  { c with store := [] }

/-- `ProcessedSoundCache.set_capacity`: clamp the new capacity to at
least 1, then evict from the least-recently-used end until within it. -/
def ProcessedSoundCache.set_capacity (c : ProcessedSoundCache K V) (max_items : ℤ) :
    ProcessedSoundCache K V :=
  let n := (max 1 max_items).toNat
  { max_items := n, store := evictLoop n c.store }

/-! ### Settings signature and disk-cache naming (`soundboard.py`) -/

/-- Little-endian decimal digits of a natural number, with an explicit
fuel argument so that the recursion is structural (`n` itself is always
enough fuel). -/
def digitsRevAux : ℕ → ℕ → List ℕ
  | _, 0 => []
  | 0, _ + 1 => []
  | fuel + 1, n + 1 => (n + 1) % 10 :: digitsRevAux fuel ((n + 1) / 10)

/-- Little-endian decimal digits of `n`. -/
def natDecimalRev (n : ℕ) : List ℕ := digitsRevAux n n

/-- Decimal digit string of a natural number (most significant digit
first); the rendering used by Python string interpolation of a
non-negative integer. -/
def natStr (n : ℕ) : String :=
  if n = 0 then "0" else String.mk ((natDecimalRev n).map Nat.digitChar).reverse

/-- `round(q * 1000)` computed on the numerator and denominator with
integer floor division: `⌊1000·q + 1/2⌋`. -/
def roundMilli (q : ℚ) : ℤ := Int.fdiv (2000 * q.num + (q.den : ℤ)) (2 * (q.den : ℤ))

/-- Fixed-point rendering `f"{q:.3f}"` of a finite value: round to three
decimal places and print with exactly three digits after the point. -/
def fmtFixed3 (q : ℚ) : String :=
  let m : ℤ := roundMilli q
  let sign : String := if m < 0 then "-" else ""
  let n : ℕ := m.natAbs
  let frac : ℕ := n % 1000
  let fracStr : String :=
    if frac < 10 then "00" ++ natStr frac
    else if frac < 100 then "0" ++ natStr frac
    else natStr frac
  sign ++ natStr (n / 1000) ++ "." ++ fracStr

/-- `f"{x:.3f}"` on a Python float, including the non-finite spellings. -/
def pyFmt3 : PyFloat → String
  | .finite q => fmtFixed3 q
  | .inf => "inf"
  | .neginf => "-inf"
  | .nan => "nan"

/-- `SoundboardWindow._compressor_signature`: the seven audio-affecting
numeric fields formatted to three decimals, tagged and joined with
`|`. -/
def compressorSignature (s : CompressorSettings) : String :=
  "ig=" ++ pyFmt3 s.input_gain_db ++
  "|th=" ++ pyFmt3 s.threshold_db ++
  "|ra=" ++ pyFmt3 s.ratio ++
  "|at=" ++ pyFmt3 s.attack_ms ++
  "|re=" ++ pyFmt3 s.release_ms ++
  "|mk=" ++ pyFmt3 s.makeup_gain_db ++
  "|ce=" ++ pyFmt3 s.output_ceiling_db

/-- Result of `os.stat` on the source file: `some (mtime_ns, size)` on
success, `none` when the stat raises `OSError`. -/
def StatResult : Type := Option (ℕ × ℕ)

/-- The `stamp` string of `SoundboardWindow._disk_cache_filename`:
`f"{st_mtime_ns}:{st_size}"`, or the sentinel `"0:0"` when the stat
fails. -/
def statStamp : StatResult → String
  | some (m, sz) => natStr m ++ ":" ++ natStr sz
  | Option.none => "0:0"

/-- The `raw_key` string fed to the digest:
`f"{sound_data.file}|{stamp}|{signature}"`. -/
def diskCacheRawKey (file : String) (st : StatResult) (signature : String) : String :=
  file ++ "|" ++ statStamp st ++ "|" ++ signature

/-- `SoundboardWindow._disk_cache_filename`, parametrised by the hex
digest function (the code uses SHA-1; the digest is treated as an
abstract function of the raw-key string). -/
def diskCacheFilename (digest : String → String) (cacheDir file : String)
    (st : StatResult) (signature : String) : String :=
  cacheDir ++ "/" ++ digest (diskCacheRawKey file st signature) ++ ".wav"

/-! ### Settings mutation and cache invalidation (`soundboard.py`) -/

/-- The seven numeric compressor fields wired to dials in
`SoundboardWindow` (the `specs` table); `on_compressor_dial_changed`
only ever passes these attribute names to `_set_compressor_attr`, so the
`cache_max_items` branch there is unreachable from the UI. -/
inductive DialField where
  | input_gain_db
  | threshold_db
  | ratio
  | attack_ms
  | release_ms
  | makeup_gain_db
  | output_ceiling_db
deriving DecidableEq, Repr

/-- `setattr(self.compressor_settings, attr, float(value))` for a dial
field. -/
def setDialField (s : CompressorSettings) : DialField → PyFloat → CompressorSettings
  | .input_gain_db, v => { s with input_gain_db := v }
  | .threshold_db, v => { s with threshold_db := v }
  | .ratio, v => { s with ratio := v }
  | .attack_ms, v => { s with attack_ms := v }
  | .release_ms, v => { s with release_ms := v }
  | .makeup_gain_db, v => { s with makeup_gain_db := v }
  | .output_ceiling_db, v => { s with output_ceiling_db := v }

/-- Reads a dial field back from the settings. -/
def getDialField (s : CompressorSettings) : DialField → PyFloat
  | .input_gain_db => s.input_gain_db
  | .threshold_db => s.threshold_db
  | .ratio => s.ratio
  | .attack_ms => s.attack_ms
  | .release_ms => s.release_ms
  | .makeup_gain_db => s.makeup_gain_db
  | .output_ceiling_db => s.output_ceiling_db

/-- The slice of `SoundboardWindow` state the compressor subsystem
mutates: the settings object, the in-memory processed cache, and the
set of `.wav` files in the disk-cache directory.  The
`_compressor_updating_ui` re-entrancy flag guards both mutation
handlers. -/
structure SoundboardState (K V : Type) where
  updating_ui : Bool
  settings : CompressorSettings
  mem : ProcessedSoundCache K V
  disk : List String
deriving Repr

/-- `SoundboardWindow._clear_processed_cache(increment_revision=True)`:
bumps `revision` and clears the memory cache. -/
def clearProcessedCache (st : SoundboardState K V) : SoundboardState K V :=
  { st with
      settings := { st.settings with revision := st.settings.revision + 1 }
      mem := st.mem.clear }

/-- `SoundboardWindow._clear_disk_cache`: removes every `.wav` file in
the cache directory. -/
def clearDiskCache (st : SoundboardState K V) : SoundboardState K V :=
  { st with disk := [] }

/-- `SoundboardWindow._set_compressor_attr` for a dial field: stores the
raw float value (no clamping), bumps `revision`, clears the memory
cache, clears the disk cache.  (`save_settings` does not touch this
state slice.) -/
def setCompressorAttr (st : SoundboardState K V) (attr : DialField) (value : PyFloat) :
    SoundboardState K V :=
  clearDiskCache (clearProcessedCache { st with settings := setDialField st.settings attr value })

/-- `SoundboardWindow.on_compressor_dial_changed`: a no-op while the UI
is being synchronised, otherwise `_set_compressor_attr`. -/
def onCompressorDialChanged (st : SoundboardState K V) (attr : DialField) (value : PyFloat) :
    SoundboardState K V :=
  if st.updating_ui then st else setCompressorAttr st attr value

/-- `SoundboardWindow.on_compressor_enabled_toggled`: a no-op while the
UI is being synchronised, otherwise sets `enabled := bool(checked)` and
persists the settings — it does not bump `revision` and does not touch
either cache. -/
def onCompressorEnabledToggled (st : SoundboardState K V) (checked : Bool) :
    SoundboardState K V :=
  if st.updating_ui then st
  else { st with settings := { st.settings with enabled := checked } }

/-! ### `CompressorEngine` sample-format conversion (`audio_processing.py`)

Buffers are lists of rationals (exact values of the numeric samples);
one list per channel-interleaved array is enough for the per-sample
conversions, which are elementwise. -/

/-- The native sample representation of a clip: `numpy` dtype kinds
`u` (unsigned), `i`/`b` (signed), and floating point. -/
inductive SampleKind where
  | unsigned (bits : ℕ)
  | signed (bits : ℕ)
  | float
deriving DecidableEq, Repr

/-- `np.iinfo(dtype).max` for an unsigned dtype of `bits` bits. -/
def uintMax (bits : ℕ) : ℤ := 2 ^ bits - 1

/-- `max(abs(iinfo.min), iinfo.max)` for a signed dtype of `bits` bits:
the magnitude of the minimum, `2 ^ (bits - 1)`. -/
def sintMaxAbs (bits : ℕ) : ℤ := 2 ^ (bits - 1)

/-- `np.iinfo(dtype).max` for a signed dtype of `bits` bits. -/
def sintMax (bits : ℕ) : ℤ := 2 ^ (bits - 1) - 1

/-- `CompressorEngine._sound_to_float`: normalise every sample to a
signed float.  Unsigned dtypes are rescaled from `[0, max]` to
`[-1, 1]`; signed dtypes divide by the symmetric maximum magnitude;
float data passes through. -/
def soundToFloat (kind : SampleKind) (arr : List ℚ) : List ℚ :=
  match kind with
  | .unsigned bits => arr.map (fun x => x / (uintMax bits : ℚ) * 2 - 1)
  | .signed bits => arr.map (fun x => x / (sintMaxAbs bits : ℚ))
  | .float => arr

/-- `np.clip(data, -1.0, 1.0)` on a single sample. -/
def clip1 (x : ℚ) : ℚ := max (-1) (min 1 x)

/-- `CompressorEngine._float_to_sound`: convert back to the original
native representation; integer targets clip to `[-1, 1]`, rescale, and
truncate toward zero (`astype`), float targets just clip. -/
def floatToSound (kind : SampleKind) (data : List ℚ) : List ℚ :=
  match kind with
  | .unsigned bits => data.map (fun d => ((ratTrunc ((clip1 d + 1) * (1 / 2) * (uintMax bits : ℚ)) : ℤ) : ℚ))
  | .signed bits => data.map (fun d => ((ratTrunc (clip1 d * (sintMax bits : ℚ)) : ℤ) : ℚ))
  | .float => data.map clip1

/-- Normalise then denormalise, the round-trip of
`_sound_to_float`/`_float_to_sound`. -/
def formatRoundTrip (kind : SampleKind) (arr : List ℚ) : List ℚ :=
  floatToSound kind (soundToFloat kind arr)

/-! ### `CompressorEngine._compressor_gain` (`audio_processing.py`)

The envelope/gain loop uses `exp` and `log10`, so this part of the
embedding works over the real numbers; the record below carries the
numeric settings fields the loop reads, as exact reals. -/

/-- The numeric settings fields read by `_compressor_gain`, in exact
real arithmetic. -/
structure EngineParams where
  threshold_db : ℝ
  ratio : ℝ
  attack_ms : ℝ
  release_ms : ℝ

/-- `CompressorEngine._eps = 1e-9`. -/
noncomputable def engineEps : ℝ := 1 / 1000000000

/-- `CompressorEngine._db_to_linear`: `10 ** (db / 20)`. -/
noncomputable def dbToLinear (db : ℝ) : ℝ := (10 : ℝ) ^ (db / 20)

/-- One envelope update: attack coefficient when the peak exceeds the
envelope, release coefficient otherwise, then one-pole smoothing. -/
noncomputable def envUpdate (attack_coeff release_coeff env peak : ℝ) : ℝ :=
  let coeff := if env < peak then attack_coeff else release_coeff
  coeff * env + (1 - coeff) * peak

/-- The envelope in dB: `20 * log10(max(env, eps))`. -/
noncomputable def envDb (env : ℝ) : ℝ := 20 * Real.logb 10 (max env engineEps)

/-- `reduction_db = (threshold + over_db / ratio) - env_db` for a frame
above threshold (`over_db = env_db - threshold`). -/
noncomputable def reductionDb (threshold ratio env_db : ℝ) : ℝ :=
  threshold + (env_db - threshold) / ratio - env_db

/-- The gain assigned to one frame from its envelope in dB: `1.0` at or
below threshold, otherwise `10 ** (reduction_db / 20)`. -/
noncomputable def frameGain (threshold ratio env_db : ℝ) : ℝ :=
  if env_db ≤ threshold then 1 else dbToLinear (reductionDb threshold ratio env_db)

/-- The sequential loop body of `_compressor_gain`, producing one gain
per frame while threading the envelope. -/
noncomputable def gainLoop (attack_coeff release_coeff threshold ratio : ℝ) :
    ℝ → List ℝ → List ℝ
  | _, [] => []
  | env, peak :: rest =>
    let env2 := envUpdate attack_coeff release_coeff env peak
    frameGain threshold ratio (envDb env2) ::
      gainLoop attack_coeff release_coeff threshold ratio env2 rest

/-- The per-frame envelope-in-dB trace of the same loop. -/
noncomputable def envDbTrace (attack_coeff release_coeff : ℝ) :
    ℝ → List ℝ → List ℝ
  | _, [] => []
  | env, peak :: rest =>
    let env2 := envUpdate attack_coeff release_coeff env peak
    envDb env2 :: envDbTrace attack_coeff release_coeff env2 rest

/-- `CompressorEngine._compressor_gain(level, sample_rate, settings)`:
per-sample smoothing coefficients from the (floored) attack/release
times, ratio floored at 1, envelope initialised to 0. -/
noncomputable def compressorGain (level : List ℝ) (sample_rate : ℝ) (p : EngineParams) :
    List ℝ :=
  let attack_s := max 0.001 (p.attack_ms / 1000)
  let release_s := max 0.001 (p.release_ms / 1000)
  let attack_coeff := Real.exp (-1 / (attack_s * sample_rate))
  let release_coeff := Real.exp (-1 / (release_s * sample_rate))
  gainLoop attack_coeff release_coeff p.threshold_db (max 1 p.ratio) 0 level

/-- The envelope-in-dB trace of `_compressor_gain` on the same inputs. -/
noncomputable def compressorEnvDbTrace (level : List ℝ) (sample_rate : ℝ)
    (p : EngineParams) : List ℝ :=
  let attack_s := max 0.001 (p.attack_ms / 1000)
  let release_s := max 0.001 (p.release_ms / 1000)
  let attack_coeff := Real.exp (-1 / (attack_s * sample_rate))
  let release_coeff := Real.exp (-1 / (release_s * sample_rate))
  envDbTrace attack_coeff release_coeff 0 level

/-! ### Playback orchestration (`SoundboardWindow.play_sound`)

Each step of the processing chain is an oracle that either produces a
result or raises (`Except`); the orchestration below is the literal
shape of the `try`/`except` block in `play_sound`. -/

/-- The processing chain inside the `try` block of `play_sound`: memory
cache probe; on miss, disk cache probe; on miss again, engine
processing followed by the disk-cache write; then the memory-cache
insert of whatever was obtained. -/
def processedChain {α ε : Type} (memProbe : Except ε (Option α))
    (diskProbe : Except ε (Option α)) (engine : Except ε α)
    (diskWrite : α → Except ε Unit) (memInsert : α → Except ε Unit) :
    Except ε α := do
  match ← memProbe with
  | some cached => pure cached
  | Option.none =>
    let cached ←
      match ← diskProbe with
      | some cached => pure cached
      | Option.none => do
        let cached ← engine
        diskWrite cached
        pure cached
    memInsert cached
    pure cached

/-- The `sound_to_play` selection of `play_sound` for a loaded clip:
with processing disabled the raw clip; with processing enabled the
chain's result, downgraded to the raw clip if any step raised. -/
def soundToPlay {α ε : Type} (enabled : Bool) (raw : α)
    (memProbe : Except ε (Option α)) (diskProbe : Except ε (Option α))
    (engine : Except ε α) (diskWrite : α → Except ε Unit)
    (memInsert : α → Except ε Unit) : α :=
  if enabled then
    match processedChain memProbe diskProbe engine diskWrite memInsert with
    | .ok s => s
    | .error _ => raw
  else raw

/-- `SoundboardWindow.play_sound`: nothing is played for an unknown
key; otherwise the selected sound (processed when possible, the raw
clip on any processing failure) is played. -/
def playSound {α ε : Type} (sound_index : String → Option α) (sound_key : String)
    (enabled : Bool) (memProbe : Except ε (Option α)) (diskProbe : Except ε (Option α))
    (engine : Except ε α) (diskWrite : α → Except ε Unit)
    (memInsert : α → Except ε Unit) : Option α :=
  match sound_index sound_key with
  | Option.none => Option.none
  | some sound_data =>
    some (soundToPlay enabled sound_data memProbe diskProbe engine diskWrite memInsert)

/-! ## Helper lemmas -/

theorem evictLoop_eq_drop (n : ℕ) (l : List (K × V)) :
    evictLoop n l = l.drop (l.length - n) := by
  induction l with
  | nil => simp [evictLoop]
  | cons p rest ih =>
    by_cases h : n < (p :: rest).length
    · rw [evictLoop, if_pos h, ih]
      have : (p :: rest).length - n = (rest.length - n) + 1 := by
        simp only [List.length_cons]
        simp only [List.length_cons] at h
        omega
      rw [this, List.drop_succ_cons]
    · rw [evictLoop, if_neg h]
      have : (p :: rest).length - n = 0 := by
        simp only [List.length_cons]
        simp only [List.length_cons] at h
        omega
      rw [this, List.drop_zero]

theorem moveToEnd_fresh (store : List (K × V)) (key : K) (value : V)
    (h : key ∉ store.map Prod.fst) :
    moveToEnd store key value = store ++ [(key, value)] := by
  unfold moveToEnd
  congr 1
  refine List.filter_eq_self.mpr ?_
  intro p hp
  have hmem : p.1 ∈ store.map Prod.fst := List.mem_map_of_mem Prod.fst hp
  have hne : ¬ p.1 = key := fun hc => h (hc ▸ hmem)
  simp [hne]

theorem storeLookup_cons (a : K) (v : V) (rest : List (K × V)) (key : K) :
    storeLookup ((a, v) :: rest) key =
      if a = key then some v else storeLookup rest key := by
  unfold storeLookup
  by_cases h : a = key
  · rw [List.find?_cons_of_pos _ (by simpa using h), if_pos h]
    rfl
  · rw [List.find?_cons_of_neg _ (by simpa using h), if_neg h]

theorem storeLookup_map_isSome (vals : K → V) (L : List K) (key : K) :
    ((storeLookup (L.map fun k => (k, vals k)) key).isSome = true) ↔ key ∈ L := by
  induction L with
  | nil => simp [storeLookup]
  | cons a L ih =>
    rw [List.map_cons, storeLookup_cons]
    by_cases h : a = key
    · simp [h]
    · rw [if_neg h, ih]
      simp only [List.mem_cons]
      constructor
      · exact Or.inr
      · rintro (rfl | hm)
        · exact absurd rfl h
        · exact hm

theorem get_fst_isSome_iff (c : ProcessedSoundCache K V) (key : K) :
    (((c.get key).1.isSome = true) ↔ (storeLookup c.store key).isSome = true) := by
  unfold ProcessedSoundCache.get
  cases h : storeLookup c.store key <;> simp [h]

/-- `putAll c keys vals`: the sequence `put keys[0]; put keys[1]; ...`
starting from cache `c`. -/
def putAll (c : ProcessedSoundCache K V) (keys : List K) (vals : K → V) :
    ProcessedSoundCache K V :=
  keys.foldl (fun acc k => acc.put k (vals k)) c

theorem putAll_store (cap : ℕ) (vals : K → V) :
    ∀ (keys : List K) (S : List (K × V)), S.length ≤ cap →
    (S.map Prod.fst ++ keys).Nodup →
    (putAll ⟨cap, S⟩ keys vals).store =
      (S ++ keys.map fun k => (k, vals k)).drop ((S.length + keys.length) - cap) := by
  intro keys
  induction keys with
  | nil =>
    intro S hS _
    simp only [putAll, List.foldl_nil, List.map_nil, List.append_nil, List.length_nil,
      Nat.add_zero]
    have h0 : S.length - cap = 0 := by omega
    rw [h0, List.drop_zero]
  | cons k ks ih =>
    intro S hS hnd
    have hkfresh : k ∉ S.map Prod.fst := by
      intro hmem
      have hdisj : List.Disjoint (S.map Prod.fst) (k :: ks) :=
        List.disjoint_of_nodup_append hnd
      exact hdisj hmem (List.mem_cons_self k ks)
    have hd1 : (S.length + 1) - cap ≤ (S ++ [(k, vals k)]).length := by
      simp only [List.length_append, List.length_cons, List.length_nil]
      omega
    have hputc : (ProcessedSoundCache.put ⟨cap, S⟩ k (vals k)) =
        (⟨cap, (S ++ [(k, vals k)]).drop ((S.length + 1) - cap)⟩ : ProcessedSoundCache K V) := by
      unfold ProcessedSoundCache.put
      rw [moveToEnd_fresh S k (vals k) hkfresh, evictLoop_eq_drop]
      simp
    set S' : List (K × V) := (S ++ [(k, vals k)]).drop ((S.length + 1) - cap) with hS'
    have hS'len : S'.length = (S.length + 1) - ((S.length + 1) - cap) := by
      rw [hS']
      simp [List.length_drop]
    have hS'le : S'.length ≤ cap := by omega
    have hS'fst : S'.map Prod.fst = ((S.map Prod.fst) ++ [k]).drop ((S.length + 1) - cap) := by
      rw [hS', List.map_drop]
      congr 1
      simp
    have hnd' : (S'.map Prod.fst ++ ks).Nodup := by
      have hsub : List.Sublist (S'.map Prod.fst) ((S.map Prod.fst) ++ [k]) := by
        rw [hS'fst]
        exact List.drop_sublist _ _
      have hsub2 : List.Sublist (S'.map Prod.fst ++ ks) (((S.map Prod.fst) ++ [k]) ++ ks) :=
        hsub.append_right ks
      have hbig : (((S.map Prod.fst) ++ [k]) ++ ks).Nodup := by
        rw [List.append_assoc]
        simpa using hnd
      exact hbig.sublist hsub2
    have hstep : putAll (⟨cap, S⟩ : ProcessedSoundCache K V) (k :: ks) vals =
        putAll (ProcessedSoundCache.put ⟨cap, S⟩ k (vals k)) ks vals := rfl
    rw [hstep, hputc, ih S' hS'le hnd', hS',
      ← List.drop_append_of_le_length hd1, List.drop_drop]
    congr 1
    · simp only [List.length_drop, List.length_append, List.length_cons, List.length_nil,
        List.length_map]
      omega
    · simp [List.append_assoc]

/-! ## Claim theorems -/

/-- C3: for every capacity `cap ≥ 1` and `k ≥ 1`, inserting `cap + k`
distinct keys into the memory cache with `put` retains exactly the
`cap` most-recently-inserted keys in recency order (the first `k` were
evicted from the least-recently-used end); `get` finds exactly the
retained keys. -/
theorem lru_put_retains_most_recent (cap k : ℕ) (keys : List K) (vals : K → V)
    (hcap : 1 ≤ cap) (hk : 1 ≤ k) (hlen : keys.length = cap + k) (hnd : keys.Nodup) :
    (putAll (ProcessedSoundCache.mk' (cap : ℤ)) keys vals).store =
      (keys.map fun key => (key, vals key)).drop k ∧
    ∀ key, (((putAll (ProcessedSoundCache.mk' (cap : ℤ)) keys vals).get key).1.isSome = true ↔
      key ∈ keys.drop k) := by
  have hmk : (ProcessedSoundCache.mk' (cap : ℤ) : ProcessedSoundCache K V) =
      ⟨cap, []⟩ := by
    unfold ProcessedSoundCache.mk'
    congr 1
    omega
  have hstore := putAll_store cap vals keys [] (by simp) (by simpa using hnd)
  simp only [List.nil_append, List.length_nil, Nat.zero_add] at hstore
  have hidx : keys.length - cap = k := by omega
  rw [hidx] at hstore
  rw [hmk]
  refine ⟨hstore, ?_⟩
  intro key
  rw [get_fst_isSome_iff, hstore, ← List.map_drop]
  exact storeLookup_map_isSome vals (keys.drop k) key

/-- Witness for C3 at the spec's scenario: capacity 2, keys A=0, B=1,
C=2 inserted in order; A is evicted, B and C are retained. -/
theorem lru_put_retains_most_recent_witness :
    ((1 ≤ 2 ∧ 1 ≤ 1 ∧ ([0, 1, 2] : List ℕ).length = 2 + 1 ∧ ([0, 1, 2] : List ℕ).Nodup) ∧
      ((putAll (ProcessedSoundCache.mk' 2) [0, 1, 2] (fun k => k + 100)).store =
          (([0, 1, 2] : List ℕ).map fun key => (key, key + 100)).drop 1 ∧
        ∀ key, (((putAll (ProcessedSoundCache.mk' 2) [0, 1, 2]
            (fun k => k + 100)).get key).1.isSome = true ↔ key ∈ ([0, 1, 2] : List ℕ).drop 1))) ∧
    ((putAll (ProcessedSoundCache.mk' 2) [0, 1, 2] (fun k => k + 100)).get 0).1 =
        Option.none ∧
    ((putAll (ProcessedSoundCache.mk' 2) [0, 1, 2] (fun k => k + 100)).get 1).1 = some 101 ∧
    ((putAll (ProcessedSoundCache.mk' 2) [0, 1, 2] (fun k => k + 100)).get 2).1 = some 102 :=
  ⟨⟨⟨by decide, by decide, by decide, by decide⟩,
    lru_put_retains_most_recent 2 1 [0, 1, 2] (fun k => k + 100)
      (by decide) (by decide) (by decide) (by decide)⟩,
    by decide, by decide, by decide⟩

/-- C10: `get` on an absent key returns `None` and returns the cache
state unchanged: same entries, same recency order, same capacity. -/
theorem lru_get_absent_leaves_cache_unchanged (c : ProcessedSoundCache K V) (key : K)
    (h : storeLookup c.store key = Option.none) :
    c.get key = (Option.none, c) := by
  unfold ProcessedSoundCache.get
  rw [h]

/-- Witness for C10: a two-slot cache holding key 1; probing absent
key 0 yields `None` and the identical cache. -/
theorem lru_get_absent_leaves_cache_unchanged_witness :
    storeLookup ([((1 : ℕ), (10 : ℕ))]) 0 = Option.none ∧
    ProcessedSoundCache.get ⟨2, [((1 : ℕ), (10 : ℕ))]⟩ 0 =
      (Option.none, ⟨2, [((1 : ℕ), (10 : ℕ))]⟩) :=
  ⟨by decide, lru_get_absent_leaves_cache_unchanged ⟨2, [(1, 10)]⟩ 0 (by decide)⟩

theorem pymax_one_eq_self (x : PyFloat) (h : PyFloat.le (.finite 1) x = true) :
    PyFloat.pymax (.finite 1) x = x := by
  cases x with
  | finite q =>
    have h1 : (1 : ℚ) ≤ q := by simpa [PyFloat.le] using h
    unfold PyFloat.pymax PyFloat.lt
    by_cases hlt : (1 : ℚ) < q
    · simp [hlt]
    · have : q = 1 := le_antisymm (not_lt.mp hlt) h1
      simp [this]
  | inf => rfl
  | neginf => simp [PyFloat.le] at h
  | nan => simp [PyFloat.le] at h

theorem one_le_pymax_one (x : PyFloat) :
    PyFloat.le (.finite 1) (PyFloat.pymax (.finite 1) x) = true := by
  cases x with
  | finite q =>
    unfold PyFloat.pymax PyFloat.lt
    by_cases hlt : (1 : ℚ) < q
    · simp [hlt, PyFloat.le]
      exact le_of_lt hlt
    · simp [hlt, PyFloat.le]
  | inf => rfl
  | neginf => rfl
  | nan => rfl

/-- The `int(...)` conversion inside `compressor_settings_from_dict`
cannot raise when the stored value is not a non-finite float. -/
def numFieldSafe : Option PyVal → Bool
  | some (.float .inf) => false
  | some (.float .neginf) => false
  | some (.float .nan) => false
  | _ => true

theorem toInt_ok_of_safe (v : Option PyVal) (z : ℤ) (h : numFieldSafe v = true) :
    ∃ w, (pyNum v (.int z)).toInt = .ok w := by
  match v with
  | Option.none => exact ⟨z, rfl⟩
  | some .none => exact ⟨z, rfl⟩
  | some (.bool b) => cases b <;> exact ⟨_, rfl⟩
  | some (.int w) => exact ⟨w, rfl⟩
  | some (.float (.finite q)) => exact ⟨ratTrunc q, rfl⟩
  | some (.float .inf) => simp [numFieldSafe] at h
  | some (.float .neginf) => simp [numFieldSafe] at h
  | some (.float .nan) => simp [numFieldSafe] at h
  | some (.str t) => exact ⟨z, rfl⟩
  | some (.obj t) => exact ⟨z, rfl⟩

theorem to_dict_enabled (s : CompressorSettings) :
    compressor_settings_to_dict s "compressor_enabled" = some (.bool s.enabled) := rfl

theorem to_dict_input_gain (s : CompressorSettings) :
    compressor_settings_to_dict s "compressor_input_gain_db" = some (.float s.input_gain_db) := rfl

theorem to_dict_threshold (s : CompressorSettings) :
    compressor_settings_to_dict s "compressor_threshold_db" = some (.float s.threshold_db) := rfl

theorem to_dict_ratio (s : CompressorSettings) :
    compressor_settings_to_dict s "compressor_ratio" = some (.float s.ratio) := rfl

theorem to_dict_attack (s : CompressorSettings) :
    compressor_settings_to_dict s "compressor_attack_ms" = some (.float s.attack_ms) := rfl

theorem to_dict_release (s : CompressorSettings) :
    compressor_settings_to_dict s "compressor_release_ms" = some (.float s.release_ms) := rfl

theorem to_dict_makeup (s : CompressorSettings) :
    compressor_settings_to_dict s "compressor_makeup_gain_db" = some (.float s.makeup_gain_db) := rfl

theorem to_dict_ceiling (s : CompressorSettings) :
    compressor_settings_to_dict s "compressor_output_ceiling_db" = some (.float s.output_ceiling_db) := rfl

theorem to_dict_cache_max (s : CompressorSettings) :
    compressor_settings_to_dict s "compressor_cache_max_items" = some (.int s.cache_max_items) := rfl

theorem to_dict_revision (s : CompressorSettings) :
    compressor_settings_to_dict s "compressor_revision" = some (.int s.revision) := rfl

/-- C4: for every settings value satisfying the domain invariants
(`ratio >= 1`, `attack_ms >= 1`, `release_ms >= 1`, `cache_max_items >= 1`,
`revision >= 0`), deserialising its serialisation is the identity. -/
theorem settings_roundtrip (s : CompressorSettings)
    (hr : PyFloat.le (.finite 1) s.ratio = true)
    (ha : PyFloat.le (.finite 1) s.attack_ms = true)
    (hrel : PyFloat.le (.finite 1) s.release_ms = true)
    (hc : 1 ≤ s.cache_max_items)
    (hv : 0 ≤ s.revision) :
    compressor_settings_from_dict (compressor_settings_to_dict s) = .ok s := by
  simp only [compressor_settings_from_dict, to_dict_enabled, to_dict_input_gain,
    to_dict_threshold, to_dict_ratio, to_dict_attack, to_dict_release, to_dict_makeup,
    to_dict_ceiling, to_dict_cache_max, to_dict_revision, pyNum, PyVal.asNum,
    PyVal.toBool, PyNum.toFloat, PyNum.toInt, Option.getD]
  have hbind : ∀ {α β : Type} (a : α) (f : α → Except String β), (Except.ok a >>= f) = f a :=
    fun _ _ => rfl
  simp only [hbind, pymax_one_eq_self _ hr, pymax_one_eq_self _ ha, pymax_one_eq_self _ hrel,
    max_eq_right hc, max_eq_right hv]

/-- Witness for C4 at the default settings. -/
theorem settings_roundtrip_witness :
    (PyFloat.le (.finite 1) DEFAULT_COMPRESSOR_SETTINGS.ratio = true ∧
      PyFloat.le (.finite 1) DEFAULT_COMPRESSOR_SETTINGS.attack_ms = true ∧
      PyFloat.le (.finite 1) DEFAULT_COMPRESSOR_SETTINGS.release_ms = true ∧
      1 ≤ DEFAULT_COMPRESSOR_SETTINGS.cache_max_items ∧
      0 ≤ DEFAULT_COMPRESSOR_SETTINGS.revision) ∧
    compressor_settings_from_dict
      (compressor_settings_to_dict DEFAULT_COMPRESSOR_SETTINGS) =
      .ok DEFAULT_COMPRESSOR_SETTINGS :=
  ⟨⟨by decide, by decide, by decide, by decide, by decide⟩,
    settings_roundtrip DEFAULT_COMPRESSOR_SETTINGS
      (by decide) (by decide) (by decide) (by decide) (by decide)⟩

/-- The dictionary witnessing that `compressor_settings_from_dict` can
raise: `compressor_cache_max_items` holds the float `nan`, so
`int(...)` raises `ValueError`. -/
def nanCacheMaxDict : SettingsDict := fun k =>
  if k = "compressor_cache_max_items" then some (.float .nan) else Option.none

/-- The dictionary whose `compressor_ratio` value is the int
`10 ** 400`, whose magnitude exceeds what `float()` can represent. -/
def hugeRatioDict : SettingsDict := fun k =>
  if k = "compressor_ratio" then some (.int ((10 ^ 400 : ℕ) : ℤ)) else Option.none

/-- C8 counterexample: `compressor_settings_from_dict` can raise — on a
dictionary whose `compressor_cache_max_items` value is the float `nan`
(`int(float("nan"))` raises `ValueError`), and on one whose
`compressor_ratio` value is the int `10 ** 400` (`float(10 ** 400)`
raises `OverflowError`) — instead of falling back to a default,
refuting the claim that no input dictionary makes it raise. -/
theorem from_dict_raises_on_nan_cache_max_items :
    compressor_settings_from_dict nanCacheMaxDict = .error "ValueError" ∧
    compressor_settings_from_dict hugeRatioDict = .error "OverflowError" :=
  ⟨rfl, rfl⟩

/-- The `float(...)` conversion of a float-field value inside
`compressor_settings_from_dict` cannot raise when the stored value is
not an int of magnitude at least `floatOverflowBound` (every
non-numeric value falls back to the finite default). -/
def floatFieldSafe : Option PyVal → Bool
  | some (.int z) => decide (z.natAbs < floatOverflowBound)
  | _ => true

theorem one_lt_floatOverflowBound : 1 < floatOverflowBound := by
  unfold floatOverflowBound
  have h1 : (2 : ℕ) ^ 970 < 2 ^ 1024 := Nat.pow_lt_pow_right (by omega) (by omega)
  have h2 : (2 : ℕ) ≤ 2 ^ 970 := by
    calc (2 : ℕ) = 2 ^ 1 := (pow_one 2).symm
    _ ≤ 2 ^ 970 := Nat.pow_le_pow_right (by omega) (by omega)
  have h3 : (2 : ℕ) ^ 970 + 2 ^ 970 ≤ 2 ^ 1024 := by
    have : (2 : ℕ) ^ 971 ≤ 2 ^ 1024 := Nat.pow_le_pow_right (by omega) (by omega)
    calc (2 : ℕ) ^ 970 + 2 ^ 970 = 2 ^ 971 := by ring
    _ ≤ 2 ^ 1024 := this
  omega

theorem toFloat_int_small (z : ℤ) (h : z.natAbs < floatOverflowBound) :
    PyNum.toFloat (.int z) = .ok (.finite z) := by
  simp only [PyNum.toFloat]
  rw [if_neg (by omega)]

theorem toFloat_ok_of_safe (v : Option PyVal) (d : PyFloat) (h : floatFieldSafe v = true) :
    ∃ f, (pyNum v (.float d)).toFloat = .ok f := by
  match v with
  | Option.none => exact ⟨d, rfl⟩
  | some .none => exact ⟨d, rfl⟩
  | some (.bool b) =>
    cases b
    · exact ⟨.finite 0, toFloat_int_small 0 (by
        have := one_lt_floatOverflowBound
        simp only [Int.natAbs_zero]
        omega)⟩
    · exact ⟨.finite 1, toFloat_int_small 1 (by
        have := one_lt_floatOverflowBound
        simp only [Int.natAbs_one]
        omega)⟩
  | some (.int w) =>
    have hw : w.natAbs < floatOverflowBound := by
      simpa [floatFieldSafe] using h
    exact ⟨.finite w, toFloat_int_small w hw⟩
  | some (.float f) => exact ⟨f, rfl⟩
  | some (.str t) => exact ⟨d, rfl⟩
  | some (.obj t) => exact ⟨d, rfl⟩

/-- C8 (amended): for every input dictionary whose float-field values
are not ints too large for `float()` (magnitude at least
`2 ^ 1024 - 2 ^ 970` raises `OverflowError`) and whose
`compressor_cache_max_items` and `compressor_revision` values are not
non-finite floats (`int()` raises on those), the parse returns without
raising, and the result satisfies the clamped domain invariants. -/
theorem from_dict_total_and_clamped (data : SettingsDict)
    (hf1 : floatFieldSafe (data "compressor_input_gain_db") = true)
    (hf2 : floatFieldSafe (data "compressor_threshold_db") = true)
    (hf3 : floatFieldSafe (data "compressor_ratio") = true)
    (hf4 : floatFieldSafe (data "compressor_attack_ms") = true)
    (hf5 : floatFieldSafe (data "compressor_release_ms") = true)
    (hf6 : floatFieldSafe (data "compressor_makeup_gain_db") = true)
    (hf7 : floatFieldSafe (data "compressor_output_ceiling_db") = true)
    (h1 : numFieldSafe (data "compressor_cache_max_items") = true)
    (h2 : numFieldSafe (data "compressor_revision") = true) :
    ∃ s, compressor_settings_from_dict data = .ok s ∧
      PyFloat.le (.finite 1) s.ratio = true ∧
      PyFloat.le (.finite 1) s.attack_ms = true ∧
      PyFloat.le (.finite 1) s.release_ms = true ∧
      1 ≤ s.cache_max_items := by
  obtain ⟨f1, hg1⟩ := toFloat_ok_of_safe (data "compressor_input_gain_db")
    DEFAULT_COMPRESSOR_SETTINGS.input_gain_db hf1
  obtain ⟨f2, hg2⟩ := toFloat_ok_of_safe (data "compressor_threshold_db")
    DEFAULT_COMPRESSOR_SETTINGS.threshold_db hf2
  obtain ⟨f3, hg3⟩ := toFloat_ok_of_safe (data "compressor_ratio")
    DEFAULT_COMPRESSOR_SETTINGS.ratio hf3
  obtain ⟨f4, hg4⟩ := toFloat_ok_of_safe (data "compressor_attack_ms")
    DEFAULT_COMPRESSOR_SETTINGS.attack_ms hf4
  obtain ⟨f5, hg5⟩ := toFloat_ok_of_safe (data "compressor_release_ms")
    DEFAULT_COMPRESSOR_SETTINGS.release_ms hf5
  obtain ⟨f6, hg6⟩ := toFloat_ok_of_safe (data "compressor_makeup_gain_db")
    DEFAULT_COMPRESSOR_SETTINGS.makeup_gain_db hf6
  obtain ⟨f7, hg7⟩ := toFloat_ok_of_safe (data "compressor_output_ceiling_db")
    DEFAULT_COMPRESSOR_SETTINGS.output_ceiling_db hf7
  obtain ⟨w1, hw1⟩ := toInt_ok_of_safe (data "compressor_cache_max_items")
    DEFAULT_COMPRESSOR_SETTINGS.cache_max_items h1
  obtain ⟨w2, hw2⟩ := toInt_ok_of_safe (data "compressor_revision")
    DEFAULT_COMPRESSOR_SETTINGS.revision h2
  have hbind : ∀ {α β : Type} (a : α) (f : α → Except String β), (Except.ok a >>= f) = f a :=
    fun _ _ => rfl
  simp only [compressor_settings_from_dict, hg1, hg2, hg3, hg4, hg5, hg6, hg7,
    hw1, hw2, hbind]
  exact ⟨_, rfl, one_le_pymax_one _, one_le_pymax_one _, one_le_pymax_one _,
    le_max_left 1 w1⟩

/-- The empty settings dictionary (every key absent). -/
def emptySettingsDict : SettingsDict := fun _ => Option.none

/-- Witness for the amended C8: the empty dictionary parses without
raising, every field falling back to its default. -/
theorem from_dict_total_and_clamped_witness :
    (floatFieldSafe (emptySettingsDict "compressor_input_gain_db") = true ∧
      floatFieldSafe (emptySettingsDict "compressor_threshold_db") = true ∧
      floatFieldSafe (emptySettingsDict "compressor_ratio") = true ∧
      floatFieldSafe (emptySettingsDict "compressor_attack_ms") = true ∧
      floatFieldSafe (emptySettingsDict "compressor_release_ms") = true ∧
      floatFieldSafe (emptySettingsDict "compressor_makeup_gain_db") = true ∧
      floatFieldSafe (emptySettingsDict "compressor_output_ceiling_db") = true ∧
      numFieldSafe (emptySettingsDict "compressor_cache_max_items") = true ∧
      numFieldSafe (emptySettingsDict "compressor_revision") = true) ∧
    (∃ s, compressor_settings_from_dict emptySettingsDict = .ok s ∧
      PyFloat.le (.finite 1) s.ratio = true ∧
      PyFloat.le (.finite 1) s.attack_ms = true ∧
      PyFloat.le (.finite 1) s.release_ms = true ∧
      1 ≤ s.cache_max_items) ∧
    compressor_settings_from_dict emptySettingsDict = .ok DEFAULT_COMPRESSOR_SETTINGS :=
  ⟨⟨rfl, rfl, rfl, rfl, rfl, rfl, rfl, rfl, rfl⟩,
    from_dict_total_and_clamped emptySettingsDict rfl rfl rfl rfl rfl rfl rfl rfl rfl,
    rfl⟩

/-- C5: the settings signature is a function of the seven
audio-affecting numeric fields alone — two settings values agreeing on
those fields (whatever their `enabled`, `cache_max_items`, `revision`)
have equal signatures — and toggling `enabled` leaves the signature,
hence every cache key built from it, unchanged. -/
theorem signature_ignores_non_audio_fields (s t : CompressorSettings)
    (h1 : s.input_gain_db = t.input_gain_db)
    (h2 : s.threshold_db = t.threshold_db)
    (h3 : s.ratio = t.ratio)
    (h4 : s.attack_ms = t.attack_ms)
    (h5 : s.release_ms = t.release_ms)
    (h6 : s.makeup_gain_db = t.makeup_gain_db)
    (h7 : s.output_ceiling_db = t.output_ceiling_db) :
    compressorSignature s = compressorSignature t ∧
    ∀ (st : SoundboardState K V) (checked : Bool),
      compressorSignature (onCompressorEnabledToggled st checked).settings =
        compressorSignature st.settings := by
  constructor
  · unfold compressorSignature
    rw [h1, h2, h3, h4, h5, h6, h7]
  · intro st checked
    unfold onCompressorEnabledToggled
    by_cases hui : st.updating_ui
    · rw [if_pos hui]
    · rw [if_neg hui]
      rfl

/-- Witness for C5: the default settings against a copy with `enabled`
off, a different cache capacity and a bumped revision; the signature
string also evaluates to the spec's example. -/
theorem signature_ignores_non_audio_fields_witness :
    (DEFAULT_COMPRESSOR_SETTINGS.input_gain_db =
        ({ DEFAULT_COMPRESSOR_SETTINGS with
            enabled := false, cache_max_items := 99, revision := 7 } :
          CompressorSettings).input_gain_db) ∧
    (compressorSignature DEFAULT_COMPRESSOR_SETTINGS =
      compressorSignature
        { DEFAULT_COMPRESSOR_SETTINGS with
            enabled := false, cache_max_items := 99, revision := 7 } ∧
      ∀ (st : SoundboardState ℕ ℕ) (checked : Bool),
        compressorSignature (onCompressorEnabledToggled st checked).settings =
          compressorSignature st.settings) ∧
    compressorSignature DEFAULT_COMPRESSOR_SETTINGS =
      "ig=0.000|th=-18.000|ra=4.000|at=10.000|re=120.000|mk=0.000|ce=-1.000" :=
  ⟨rfl,
    signature_ignores_non_audio_fields DEFAULT_COMPRESSOR_SETTINGS
      { DEFAULT_COMPRESSOR_SETTINGS with
          enabled := false, cache_max_items := 99, revision := 7 }
      rfl rfl rfl rfl rfl rfl rfl,
    by decide⟩

/-- Reconstructs a natural number from its little-endian decimal
digits. -/
def ofDigitsRev (l : List ℕ) : ℕ := l.foldr (fun d acc => d + 10 * acc) 0

theorem ofDigitsRev_digitsRevAux : ∀ (fuel n : ℕ), n ≤ fuel →
    ofDigitsRev (digitsRevAux fuel n) = n := by
  intro fuel
  induction fuel with
  | zero =>
    intro n hn
    interval_cases n
    rfl
  | succ fuel ih =>
    intro n hn
    match n with
    | 0 => rfl
    | n + 1 =>
      have hdiv : (n + 1) / 10 ≤ fuel := by
        have : (n + 1) / 10 < n + 1 := Nat.div_lt_self (Nat.succ_pos n) (by omega)
        omega
      show ((n + 1) % 10) + 10 * ofDigitsRev (digitsRevAux fuel ((n + 1) / 10)) = n + 1
      rw [ih _ hdiv, Nat.mod_add_div]

theorem digitsRevAux_lt_ten : ∀ (fuel n d : ℕ), d ∈ digitsRevAux fuel n → d < 10 := by
  intro fuel
  induction fuel with
  | zero =>
    intro n d hd
    match n with
    | 0 => simp [digitsRevAux] at hd
    | _ + 1 => simp [digitsRevAux] at hd
  | succ fuel ih =>
    intro n d hd
    match n with
    | 0 => simp [digitsRevAux] at hd
    | n + 1 =>
      rw [digitsRevAux, List.mem_cons] at hd
      rcases hd with rfl | hd
      · exact Nat.mod_lt _ (by omega)
      · exact ih _ _ hd

theorem digitChar_inj_lt : ∀ a < 10, ∀ b < 10,
    Nat.digitChar a = Nat.digitChar b → a = b := by decide

theorem digitChar_ne_colon : ∀ d < 10, Nat.digitChar d ≠ ':' := by decide

theorem map_digitChar_inj : ∀ (l₁ l₂ : List ℕ), (∀ d ∈ l₁, d < 10) → (∀ d ∈ l₂, d < 10) →
    l₁.map Nat.digitChar = l₂.map Nat.digitChar → l₁ = l₂ := by
  intro l₁
  induction l₁ with
  | nil =>
    intro l₂ _ _ h
    cases l₂ with
    | nil => rfl
    | cons b t => simp at h
  | cons a t ih =>
    intro l₂ hb1 hb2 h
    cases l₂ with
    | nil => simp at h
    | cons b t₂ =>
      simp only [List.map_cons, List.cons.injEq] at h
      have ha : a = b := digitChar_inj_lt a (hb1 a (List.mem_cons_self a t)) b
        (hb2 b (List.mem_cons_self b t₂)) h.1
      have ht : t = t₂ := ih t₂ (fun d hd => hb1 d (List.mem_cons_of_mem a hd))
        (fun d hd => hb2 d (List.mem_cons_of_mem b hd)) h.2
      rw [ha, ht]

theorem natStr._data_eq (n : ℕ) (h : n ≠ 0) :
    (natStr n).data = ((natDecimalRev n).map Nat.digitChar).reverse := by
  rw [natStr, if_neg h]

theorem natStr_inj : ∀ (n m : ℕ), natStr n = natStr m → n = m := by
  have key : ∀ n m : ℕ, n ≠ 0 → m ≠ 0 → natStr n = natStr m → n = m := by
    intro n m hn hm h
    have hdata : (natStr n).data = (natStr m).data := by rw [h]
    rw [natStr._data_eq n hn, natStr._data_eq m hm] at hdata
    have hmap := List.reverse_injective hdata
    have hdig : natDecimalRev n = natDecimalRev m :=
      map_digitChar_inj _ _ (fun d hd => digitsRevAux_lt_ten n n d hd)
        (fun d hd => digitsRevAux_lt_ten m m d hd) hmap
    have h1 : ofDigitsRev (natDecimalRev n) = n := ofDigitsRev_digitsRevAux n n le_rfl
    have h2 : ofDigitsRev (natDecimalRev m) = m := ofDigitsRev_digitsRevAux m m le_rfl
    rw [hdig] at h1
    exact h1.symm.trans h2
  have zero_case : ∀ m : ℕ, m ≠ 0 → natStr 0 ≠ natStr m := by
    intro m hm h
    have hdata : (natStr 0).data = (natStr m).data := by rw [h]
    rw [natStr._data_eq m hm] at hdata
    have h0 : (natStr 0).data = ['0'] := by decide
    rw [h0] at hdata
    have hrev : ((natDecimalRev m).map Nat.digitChar) = ['0'] := by
      have := congrArg List.reverse hdata
      simpa using this.symm
    have : natDecimalRev m = [0] := by
      apply map_digitChar_inj
      · exact fun d hd => digitsRevAux_lt_ten m m d hd
      · intro d hd
        simp at hd
        omega
      · simpa using hrev
    have hofm := ofDigitsRev_digitsRevAux m m le_rfl
    rw [show digitsRevAux m m = natDecimalRev m from rfl, this] at hofm
    exact hm (by simpa [ofDigitsRev] using hofm.symm)
  intro n m h
  by_cases hn : n = 0
  · by_cases hm : m = 0
    · rw [hn, hm]
    · exact absurd (hn ▸ h) (zero_case m hm)
  · by_cases hm : m = 0
    · exact absurd (hm ▸ h).symm (zero_case n hn)
    · exact key n m hn hm h

theorem colon_not_mem_natStr (n : ℕ) : ':' ∉ (natStr n).data := by
  by_cases hn : n = 0
  · rw [hn]
    decide
  · rw [natStr._data_eq n hn]
    intro hmem
    rw [List.mem_reverse] at hmem
    obtain ⟨d, hd, hdc⟩ := List.mem_map.mp hmem
    exact digitChar_ne_colon d (digitsRevAux_lt_ten n n d hd) hdc

theorem append_colon_inj : ∀ (a₁ a₂ b₁ b₂ : List Char), ':' ∉ a₁ → ':' ∉ a₂ →
    a₁ ++ ':' :: b₁ = a₂ ++ ':' :: b₂ → a₁ = a₂ ∧ b₁ = b₂ := by
  intro a₁
  induction a₁ with
  | nil =>
    intro a₂ b₁ b₂ _ h₂ h
    cases a₂ with
    | nil => simpa using h
    | cons c t =>
      simp only [List.nil_append, List.cons_append, List.cons.injEq] at h
      exact absurd (h.1 ▸ List.mem_cons_self c t) h₂
  | cons c t ih =>
    intro a₂ b₁ b₂ h₁ h₂ h
    cases a₂ with
    | nil =>
      simp only [List.nil_append, List.cons_append, List.cons.injEq] at h
      exact absurd (h.1.symm ▸ List.mem_cons_self c t) h₁
    | cons c₂ t₂ =>
      simp only [List.cons_append, List.cons.injEq] at h
      have hc : c = c₂ := h.1
      have hrec := ih t₂ b₁ b₂ (fun hm => h₁ (List.mem_cons_of_mem c hm))
        (fun hm => h₂ (List.mem_cons_of_mem c₂ hm)) h.2
      exact ⟨by rw [hc, hrec.1], hrec.2⟩

theorem statStamp_some_inj (m₁ s₁ m₂ s₂ : ℕ)
    (h : statStamp (some (m₁, s₁)) = statStamp (some (m₂, s₂))) :
    m₁ = m₂ ∧ s₁ = s₂ := by
  unfold statStamp at h
  have hdata := congrArg String.data h
  have hsplit : (natStr m₁).data ++ ':' :: (natStr s₁).data =
      (natStr m₂).data ++ ':' :: (natStr s₂).data := by
    have e : ∀ a b : String, (a ++ ":" ++ b).data = a.data ++ ':' :: b.data := by
      intro a b
      rw [String.data_append, String.data_append]
      simp [List.append_assoc]
    rw [e, e] at hdata
    exact hdata
  obtain ⟨hm, hs⟩ := append_colon_inj _ _ _ _ (colon_not_mem_natStr m₁)
    (colon_not_mem_natStr m₂) hsplit
  exact ⟨natStr_inj _ _ (String.ext hm), natStr_inj _ _ (String.ext hs)⟩

theorem str_append_cancel_left (a b c : String) (h : a ++ b = a ++ c) : b = c := by
  have hd : a.data ++ b.data = a.data ++ c.data := by
    rw [← String.data_append, ← String.data_append, h]
  exact String.ext (List.append_cancel_left hd)

theorem str_append_cancel_right (a b c : String) (h : a ++ c = b ++ c) : a = b := by
  have hd : a.data ++ c.data = b.data ++ c.data := by
    rw [← String.data_append, ← String.data_append, h]
  exact String.ext (List.append_cancel_right hd)

theorem compressorSignature_congr (s t : CompressorSettings)
    (h1 : s.input_gain_db = t.input_gain_db)
    (h2 : s.threshold_db = t.threshold_db)
    (h3 : s.ratio = t.ratio)
    (h4 : s.attack_ms = t.attack_ms)
    (h5 : s.release_ms = t.release_ms)
    (h6 : s.makeup_gain_db = t.makeup_gain_db)
    (h7 : s.output_ceiling_db = t.output_ceiling_db) :
    compressorSignature s = compressorSignature t := by
  unfold compressorSignature
  rw [h1, h2, h3, h4, h5, h6, h7]

theorem diskCacheFilename_rawKey_inj (digest : String → String)
    (hinj : Function.Injective digest) (cacheDir file₁ file₂ : String)
    (st₁ st₂ : StatResult) (sig₁ sig₂ : String)
    (h : diskCacheFilename digest cacheDir file₁ st₁ sig₁ =
      diskCacheFilename digest cacheDir file₂ st₂ sig₂) :
    diskCacheRawKey file₁ st₁ sig₁ = diskCacheRawKey file₂ st₂ sig₂ := by
  unfold diskCacheFilename at h
  have h2 := str_append_cancel_right _ _ _ h
  have h3 := str_append_cancel_left _ _ _ h2
  exact hinj h3

/-- C6: the disk-cache file identifier is the hex digest of the string
`sourcePath|mtimeNanos:sizeBytes|signature` (sentinel stamp `0:0` when
the stat fails) inside the cache directory with a `.wav` suffix; under
an injective digest the key changes whenever the signature changes or
the source file's modification time or size changes, and it is
unchanged across settings changes outside the signature, such as
`cache_max_items` (or `enabled`, `revision`). -/
theorem disk_cache_key_binds_file_identity (digest : String → String)
    (hinj : Function.Injective digest) (cacheDir file : String) :
    (∀ (st : StatResult) (sig : String),
      diskCacheFilename digest cacheDir file st sig =
        cacheDir ++ "/" ++ digest (file ++ "|" ++ statStamp st ++ "|" ++ sig) ++ ".wav") ∧
    statStamp Option.none = "0:0" ∧
    (∀ (st : StatResult) (sig₁ sig₂ : String), sig₁ ≠ sig₂ →
      diskCacheFilename digest cacheDir file st sig₁ ≠
        diskCacheFilename digest cacheDir file st sig₂) ∧
    (∀ (m₁ s₁ m₂ s₂ : ℕ) (sig : String), (m₁, s₁) ≠ (m₂, s₂) →
      diskCacheFilename digest cacheDir file (some (m₁, s₁)) sig ≠
        diskCacheFilename digest cacheDir file (some (m₂, s₂)) sig) ∧
    (∀ (s t : CompressorSettings) (st : StatResult),
      s.input_gain_db = t.input_gain_db → s.threshold_db = t.threshold_db →
      s.ratio = t.ratio → s.attack_ms = t.attack_ms → s.release_ms = t.release_ms →
      s.makeup_gain_db = t.makeup_gain_db → s.output_ceiling_db = t.output_ceiling_db →
      diskCacheFilename digest cacheDir file st (compressorSignature s) =
        diskCacheFilename digest cacheDir file st (compressorSignature t)) := by
  refine ⟨fun st sig => rfl, rfl, ?_, ?_, ?_⟩
  · intro st sig₁ sig₂ hne h
    have hraw := diskCacheFilename_rawKey_inj digest hinj cacheDir file file st st
      sig₁ sig₂ h
    unfold diskCacheRawKey at hraw
    exact hne (str_append_cancel_left _ _ _ hraw)
  · intro m₁ s₁ m₂ s₂ sig hne h
    have hraw := diskCacheFilename_rawKey_inj digest hinj cacheDir file file
      (some (m₁, s₁)) (some (m₂, s₂)) sig sig h
    unfold diskCacheRawKey at hraw
    have e1 := str_append_cancel_right _ _ _ hraw
    have e2 := str_append_cancel_right _ _ _ e1
    have e3 := str_append_cancel_left _ _ _ e2
    obtain ⟨hm, hs⟩ := statStamp_some_inj m₁ s₁ m₂ s₂ e3
    exact hne (by rw [hm, hs])
  · intro s t st h1 h2 h3 h4 h5 h6 h7
    rw [compressorSignature_congr s t h1 h2 h3 h4 h5 h6 h7]

/-- Witness for C6: the identity digest (injective), concrete paths,
stats differing in size, signatures of settings differing only in
`cache_max_items`. -/
theorem disk_cache_key_binds_file_identity_witness :
    Function.Injective (fun s : String => s) ∧
    ((∀ (st : StatResult) (sig : String),
      diskCacheFilename (fun s => s) "cache" "a.wav" st sig =
        "cache" ++ "/" ++ ("a.wav" ++ "|" ++ statStamp st ++ "|" ++ sig) ++ ".wav") ∧
    statStamp Option.none = "0:0" ∧
    (∀ (st : StatResult) (sig₁ sig₂ : String), sig₁ ≠ sig₂ →
      diskCacheFilename (fun s => s) "cache" "a.wav" st sig₁ ≠
        diskCacheFilename (fun s => s) "cache" "a.wav" st sig₂) ∧
    (∀ (m₁ s₁ m₂ s₂ : ℕ) (sig : String), (m₁, s₁) ≠ (m₂, s₂) →
      diskCacheFilename (fun s => s) "cache" "a.wav" (some (m₁, s₁)) sig ≠
        diskCacheFilename (fun s => s) "cache" "a.wav" (some (m₂, s₂)) sig) ∧
    (∀ (s t : CompressorSettings) (st : StatResult),
      s.input_gain_db = t.input_gain_db → s.threshold_db = t.threshold_db →
      s.ratio = t.ratio → s.attack_ms = t.attack_ms → s.release_ms = t.release_ms →
      s.makeup_gain_db = t.makeup_gain_db → s.output_ceiling_db = t.output_ceiling_db →
      diskCacheFilename (fun s => s) "cache" "a.wav" st (compressorSignature s) =
        diskCacheFilename (fun s => s) "cache" "a.wav" st (compressorSignature t))) ∧
    diskCacheFilename (fun s => s) "cache" "a.wav" (some (5, 6)) "sig" =
      "cache/a.wav|5:6|sig.wav" :=
  ⟨fun _ _ h => h,
    disk_cache_key_binds_file_identity (fun s => s) (fun _ _ h => h) "cache" "a.wav",
    by decide⟩

/-- A concrete soundboard state: default settings, one memory-cache
entry, one disk-cache file, UI not synchronising. -/
def sampleState : SoundboardState ℕ ℕ where
  updating_ui := false
  settings := DEFAULT_COMPRESSOR_SETTINGS
  mem := ⟨32, [(1, 5)]⟩
  disk := ["old.wav"]

/-- C7 counterexample: toggling `enabled` (a settings mutation) leaves
`revision` unchanged and leaves both caches untouched, and a dial
mutation stores an out-of-domain ratio unclamped — refuting the claim
that every mutation clamps to the field's domain, strictly increases
`revision`, and clears both caches. -/
theorem compressor_mutation_claim_fails :
    (onCompressorEnabledToggled sampleState false).settings.revision =
        sampleState.settings.revision ∧
    (onCompressorEnabledToggled sampleState false).mem.store = [(1, 5)] ∧
    (onCompressorEnabledToggled sampleState false).disk = ["old.wav"] ∧
    (setCompressorAttr sampleState .ratio (.finite 0)).settings.ratio = .finite 0 ∧
    PyFloat.le (.finite 1) (setCompressorAttr sampleState .ratio (.finite 0)).settings.ratio =
      false :=
  ⟨rfl, rfl, rfl, rfl, by decide⟩

/-- C7 (amended): dial mutations go through `_set_compressor_attr`,
which stores the supplied value as-is (no clamping), bumps `revision`
by exactly one, and clears both the memory and the disk cache; the
`enabled` toggle only flips the flag, leaving `revision` and both
caches untouched. -/
theorem compressor_mutation_effects (st : SoundboardState K V) (attr : DialField)
    (value : PyFloat) (checked : Bool) (hui : st.updating_ui = false) :
    ((setCompressorAttr st attr value).settings.revision = st.settings.revision + 1 ∧
      (setCompressorAttr st attr value).mem.store = [] ∧
      (setCompressorAttr st attr value).disk = [] ∧
      getDialField (setCompressorAttr st attr value).settings attr = value) ∧
    onCompressorDialChanged st attr value = setCompressorAttr st attr value ∧
    ((onCompressorEnabledToggled st checked).settings =
        { st.settings with enabled := checked } ∧
      (onCompressorEnabledToggled st checked).settings.revision = st.settings.revision ∧
      (onCompressorEnabledToggled st checked).mem = st.mem ∧
      (onCompressorEnabledToggled st checked).disk = st.disk) := by
  refine ⟨⟨?_, ?_, ?_, ?_⟩, ?_, ?_, ?_, ?_, ?_⟩
  · cases attr <;> rfl
  · rfl
  · rfl
  · cases attr <;> rfl
  · simp [onCompressorDialChanged, hui]
  · simp [onCompressorEnabledToggled, hui]
  · simp [onCompressorEnabledToggled, hui]
  · simp [onCompressorEnabledToggled, hui]
  · simp [onCompressorEnabledToggled, hui]

/-- Witness for the amended C7 at a concrete state, dial and value. -/
theorem compressor_mutation_effects_witness :
    sampleState.updating_ui = false ∧
    (((setCompressorAttr sampleState .ratio (.finite 0)).settings.revision =
        sampleState.settings.revision + 1 ∧
      (setCompressorAttr sampleState .ratio (.finite 0)).mem.store = [] ∧
      (setCompressorAttr sampleState .ratio (.finite 0)).disk = [] ∧
      getDialField (setCompressorAttr sampleState .ratio (.finite 0)).settings .ratio =
        .finite 0) ∧
    onCompressorDialChanged sampleState .ratio (.finite 0) =
      setCompressorAttr sampleState .ratio (.finite 0) ∧
    ((onCompressorEnabledToggled sampleState false).settings =
        { sampleState.settings with enabled := false } ∧
      (onCompressorEnabledToggled sampleState false).settings.revision =
        sampleState.settings.revision ∧
      (onCompressorEnabledToggled sampleState false).mem = sampleState.mem ∧
      (onCompressorEnabledToggled sampleState false).disk = sampleState.disk)) :=
  ⟨rfl, compressor_mutation_effects sampleState .ratio (.finite 0) false rfl⟩

/-- C2: for a loaded clip with processing enabled, if any step of the
memory-cache probe, disk-cache probe, engine processing, disk-cache
write or memory-cache insert raises, the exception is caught at the
orchestration boundary and the unprocessed raw clip is played; when the
chain succeeds its result is played.  Playback happens in either case —
a processing failure never prevents it. -/
theorem play_falls_back_on_processing_failure {α ε : Type}
    (sound_index : String → Option α) (sound_key : String) (raw : α)
    (memProbe : Except ε (Option α)) (diskProbe : Except ε (Option α))
    (engine : Except ε α) (diskWrite : α → Except ε Unit) (memInsert : α → Except ε Unit)
    (hidx : sound_index sound_key = some raw) :
    (∀ e, processedChain memProbe diskProbe engine diskWrite memInsert = .error e →
      playSound sound_index sound_key true memProbe diskProbe engine diskWrite memInsert =
        some raw) ∧
    (∀ s, processedChain memProbe diskProbe engine diskWrite memInsert = .ok s →
      playSound sound_index sound_key true memProbe diskProbe engine diskWrite memInsert =
        some s) := by
  constructor <;> intro x hx <;> simp [playSound, hidx, soundToPlay, hx]

/-- Witness for C2: a loaded clip, memory and disk probes missing, and
an engine that raises; the raw clip is played. -/
theorem play_falls_back_on_processing_failure_witness :
    ((fun _ : String => some (7 : ℕ)) "boom.wav" = some 7) ∧
    processedChain (ε := String) (.ok Option.none) (.ok Option.none) (.error "DSP failure")
      (fun _ : ℕ => .ok ()) (fun _ : ℕ => .ok ()) = .error "DSP failure" ∧
    playSound (fun _ : String => some (7 : ℕ)) "boom.wav" true (.ok Option.none)
      (.ok Option.none) (.error "DSP failure") (fun _ => .ok ()) (fun _ => .ok ()) =
      some 7 :=
  ⟨rfl, rfl,
    (play_falls_back_on_processing_failure (fun _ : String => some (7 : ℕ)) "boom.wav" 7
      (.ok Option.none) (.ok Option.none) (.error "DSP failure")
      (fun _ => .ok ()) (fun _ => .ok ()) rfl).1 "DSP failure" rfl⟩

theorem ratTrunc_intCast (n : ℤ) : ratTrunc ((n : ℤ) : ℚ) = n := by
  unfold ratTrunc
  by_cases h : ((n : ℚ)) < 0
  · rw [if_pos h, Int.ceil_intCast]
  · rw [if_neg h, Int.floor_intCast]

theorem ratTrunc_zero : ratTrunc 0 = 0 := by
  have := ratTrunc_intCast 0
  simpa using this

theorem map_eq_self_of (l : List ℚ) (f : ℚ → ℚ) (h : ∀ x ∈ l, f x = x) : l.map f = l := by
  calc l.map f = l.map id := List.map_congr_left h
  _ = l := List.map_id l

theorem clip1_of_mem_Icc (x : ℚ) (h1 : -1 ≤ x) (h2 : x ≤ 1) : clip1 x = x := by
  unfold clip1
  rw [min_eq_right h2, max_eq_right h1]

theorem uintMax_pos (bits : ℕ) (hb : 1 ≤ bits) : (1 : ℤ) ≤ uintMax bits := by
  unfold uintMax
  have h2 : (2 : ℤ) ^ 1 ≤ 2 ^ bits := pow_le_pow_right₀ (by norm_num) hb
  simp at h2
  omega

theorem unsigned_zero_roundtrip (bits : ℕ) (x : ℚ) (hx : x = 0) :
    ((ratTrunc ((clip1 (x / ((uintMax bits : ℤ) : ℚ) * 2 - 1) + 1) * (1 / 2) *
      ((uintMax bits : ℤ) : ℚ)) : ℤ) : ℚ) = x := by
  subst hx
  have e1 : (0 : ℚ) / ((uintMax bits : ℤ) : ℚ) * 2 - 1 = -1 := by
    rw [zero_div]
    ring
  rw [e1, clip1_of_mem_Icc (-1) le_rfl (by norm_num)]
  have e2 : ((-1 : ℚ) + 1) * (1 / 2) * ((uintMax bits : ℤ) : ℚ) = 0 := by ring
  rw [e2, ratTrunc_zero]
  norm_num

theorem unsigned_max_roundtrip (bits : ℕ) (hb : 1 ≤ bits) (x : ℚ)
    (hx : x = ((uintMax bits : ℤ) : ℚ)) :
    ((ratTrunc ((clip1 (x / ((uintMax bits : ℤ) : ℚ) * 2 - 1) + 1) * (1 / 2) *
      ((uintMax bits : ℤ) : ℚ)) : ℤ) : ℚ) = x := by
  subst hx
  have hU : (0 : ℚ) < ((uintMax bits : ℤ) : ℚ) := by
    exact_mod_cast lt_of_lt_of_le zero_lt_one (uintMax_pos bits hb)
  have e1 : ((uintMax bits : ℤ) : ℚ) / ((uintMax bits : ℤ) : ℚ) * 2 - 1 = 1 := by
    rw [div_self (ne_of_gt hU)]
    ring
  rw [e1, clip1_of_mem_Icc 1 (by norm_num) le_rfl]
  have e2 : ((1 : ℚ) + 1) * (1 / 2) * ((uintMax bits : ℤ) : ℚ) =
      ((uintMax bits : ℤ) : ℚ) := by ring
  rw [e2, ratTrunc_intCast]

theorem signed_zero_roundtrip (bits : ℕ) (x : ℚ) (hx : x = 0) :
    ((ratTrunc (clip1 (x / ((sintMaxAbs bits : ℤ) : ℚ)) * ((sintMax bits : ℤ) : ℚ)) : ℤ) : ℚ) =
      x := by
  subst hx
  rw [zero_div, clip1_of_mem_Icc 0 (by norm_num) (by norm_num), zero_mul, ratTrunc_zero]
  norm_num

theorem signed_max_roundtrip (bits : ℕ) (hb : 2 ≤ bits) (x : ℚ)
    (hx : x = ((sintMax bits : ℤ) : ℚ)) :
    ((ratTrunc (clip1 (x / ((sintMaxAbs bits : ℤ) : ℚ)) * ((sintMax bits : ℤ) : ℚ)) : ℤ) : ℚ) =
      ((sintMax bits - 1 : ℤ) : ℚ) := by
  subst hx
  have hM2 : (2 : ℤ) ≤ sintMaxAbs bits := by
    unfold sintMaxAbs
    have h2 : (2 : ℤ) ^ 1 ≤ 2 ^ (bits - 1) := pow_le_pow_right₀ (by norm_num) (by omega)
    simpa using h2
  have hS : sintMax bits = sintMaxAbs bits - 1 := by
    unfold sintMax sintMaxAbs
    rfl
  set M : ℤ := sintMaxAbs bits with hMdef
  have hMQ : (2 : ℚ) ≤ (M : ℚ) := by exact_mod_cast hM2
  have hMpos : (0 : ℚ) < (M : ℚ) := by linarith
  have hd : ((sintMax bits : ℤ) : ℚ) / (M : ℚ) = ((M : ℚ) - 1) / (M : ℚ) := by
    rw [hS]
    push_cast
    ring_nf
  have hd01 : (0 : ℚ) ≤ ((M : ℚ) - 1) / (M : ℚ) ∧ ((M : ℚ) - 1) / (M : ℚ) ≤ 1 := by
    constructor
    · apply div_nonneg <;> linarith
    · rw [div_le_one hMpos]
      linarith
  rw [hd, clip1_of_mem_Icc _ (by linarith [hd01.1]) hd01.2]
  have hprod : ((M : ℚ) - 1) / (M : ℚ) * ((sintMax bits : ℤ) : ℚ) =
      ((M : ℚ) - 2) + 1 / (M : ℚ) := by
    rw [hS]
    push_cast
    field_simp
    ring
  rw [hprod]
  have hnonneg : ¬ (((M : ℚ) - 2) + 1 / (M : ℚ) < 0) := by
    push_neg
    have : (0 : ℚ) < 1 / (M : ℚ) := by positivity
    linarith
  unfold ratTrunc
  rw [if_neg hnonneg]
  have hfloor : ⌊((M : ℚ) - 2) + 1 / (M : ℚ)⌋ = M - 2 := by
    rw [Int.floor_eq_iff]
    constructor
    · push_cast
      have : (0 : ℚ) < 1 / (M : ℚ) := by positivity
      linarith
    · push_cast
      have : 1 / (M : ℚ) < 1 := by
        rw [div_lt_one hMpos]
        linarith
      linarith
  rw [hfloor, hS]
  push_cast
  ring

/-- C9 (amended): normalising then denormalising reproduces an all-zero
buffer exactly for every representation, and an all-max-amplitude
buffer exactly for unsigned-integer and float representations; for a
signed representation the all-max buffer comes back one integer step
low (`2^(bits-1) - 2` instead of `2^(bits-1) - 1`), because
normalisation divides by `2^(bits-1)` while denormalisation multiplies
by `2^(bits-1) - 1`. -/
theorem format_roundtrip_exact_cases (bits : ℕ) (hb : 1 ≤ bits) (l : List ℚ) :
    ((∀ x ∈ l, x = 0) → formatRoundTrip (.unsigned bits) l = l ∧
      formatRoundTrip (.signed bits) l = l ∧ formatRoundTrip .float l = l) ∧
    ((∀ x ∈ l, x = ((uintMax bits : ℤ) : ℚ)) → formatRoundTrip (.unsigned bits) l = l) ∧
    ((∀ x ∈ l, x = 1) → formatRoundTrip .float l = l) ∧
    (2 ≤ bits → (∀ x ∈ l, x = ((sintMax bits : ℤ) : ℚ)) →
      formatRoundTrip (.signed bits) l = l.map fun _ => ((sintMax bits - 1 : ℤ) : ℚ)) := by
  refine ⟨?_, ?_, ?_, ?_⟩
  · intro hz
    refine ⟨?_, ?_, ?_⟩
    · simp only [formatRoundTrip, soundToFloat, floatToSound]
      rw [List.map_map]
      exact map_eq_self_of l _ (fun x hx => unsigned_zero_roundtrip bits x (hz x hx))
    · simp only [formatRoundTrip, soundToFloat, floatToSound]
      rw [List.map_map]
      exact map_eq_self_of l _ (fun x hx => signed_zero_roundtrip bits x (hz x hx))
    · simp only [formatRoundTrip, soundToFloat, floatToSound]
      exact map_eq_self_of l _ (fun x hx => by
        rw [hz x hx, clip1_of_mem_Icc 0 (by norm_num) (by norm_num)])
  · intro hmax
    simp only [formatRoundTrip, soundToFloat, floatToSound]
    rw [List.map_map]
    exact map_eq_self_of l _ (fun x hx => unsigned_max_roundtrip bits hb x (hmax x hx))
  · intro hone
    simp only [formatRoundTrip, soundToFloat, floatToSound]
    exact map_eq_self_of l _ (fun x hx => by
      rw [hone x hx, clip1_of_mem_Icc 1 (by norm_num) le_rfl])
  · intro hb2 hmax
    simp only [formatRoundTrip, soundToFloat, floatToSound]
    rw [List.map_map]
    exact List.map_congr_left (fun x hx => signed_max_roundtrip bits hb2 x (hmax x hx))

/-- C9 counterexample: a signed 16-bit buffer at maximum amplitude
32767 round-trips to 32766, not 32767 — exact reproduction fails, and
not by native-type rounding but by the asymmetric scale factors. -/
theorem format_roundtrip_fails_at_signed_max :
    formatRoundTrip (.signed 16) [(32767 : ℚ)] = [(32766 : ℚ)] ∧
    formatRoundTrip (.signed 16) [(32767 : ℚ)] ≠ [(32767 : ℚ)] := by
  have hx : (32767 : ℚ) = ((sintMax 16 : ℤ) : ℚ) := by norm_num [sintMax]
  have h1 : formatRoundTrip (.signed 16) [(32767 : ℚ)] = [(32766 : ℚ)] := by
    simp only [formatRoundTrip, soundToFloat, floatToSound]
    simp only [List.map_cons, List.map_nil]
    rw [signed_max_roundtrip 16 (by norm_num) _ hx]
    norm_num [sintMax]
  refine ⟨h1, ?_⟩
  rw [h1]
  simp

/-- Witness for the amended C9: an all-zero one-sample buffer in all
three representations at 8 bits. -/
theorem format_roundtrip_exact_cases_witness :
    ((1 ≤ 8 ∧ ∀ x ∈ [(0 : ℚ)], x = 0)) ∧
    (formatRoundTrip (.unsigned 8) [(0 : ℚ)] = [(0 : ℚ)] ∧
      formatRoundTrip (.signed 8) [(0 : ℚ)] = [(0 : ℚ)] ∧
      formatRoundTrip .float [(0 : ℚ)] = [(0 : ℚ)]) :=
  ⟨⟨by decide, by simp⟩, (format_roundtrip_exact_cases 8 (by decide) [0]).1 (by simp)⟩

theorem gainLoop_eq_map (ac rc th ra : ℝ) : ∀ (env : ℝ) (level : List ℝ),
    gainLoop ac rc th ra env level = (envDbTrace ac rc env level).map (frameGain th ra) := by
  intro env level
  induction level generalizing env with
  | nil => rfl
  | cons p rest ih =>
    simp only [gainLoop, envDbTrace, List.map_cons]
    exact congrArg _ (ih _)

theorem reductionDb_nonpos (th ra edb : ℝ) (hra : 1 ≤ ra) (h : th < edb) :
    reductionDb th ra edb ≤ 0 := by
  unfold reductionDb
  have h0 : 0 ≤ edb - th := by linarith
  have hdiv : (edb - th) / ra ≤ edb - th := div_le_self h0 hra
  linarith

theorem frameGain_le_one (th ra edb : ℝ) (hra : 1 ≤ ra) : frameGain th ra edb ≤ 1 := by
  unfold frameGain
  by_cases h : edb ≤ th
  · rw [if_pos h]
  · rw [if_neg h]
    unfold dbToLinear
    apply Real.rpow_le_one_of_one_le_of_nonpos (by norm_num)
    have hred := reductionDb_nonpos th ra edb hra (not_le.mp h)
    rw [div_nonpos_iff]
    right
    exact ⟨hred, by norm_num⟩

/-- C1: for every per-frame peak-level sequence and settings with
`ratio ≥ 1`, the gains of `_compressor_gain` are exactly the per-frame
envelope-in-dB values mapped through the frame-gain rule (1.0 at or
below threshold, otherwise `10^(reduction_db/20)` with
`reduction_db = (threshold + (env_db - threshold)/ratio) - env_db`);
`reduction_db` is never positive above threshold, so every frame's gain
is at most 1. -/
theorem compressor_gain_formula_and_bound (level : List ℝ) (sample_rate : ℝ)
    (p : EngineParams) (hra : 1 ≤ p.ratio) :
    compressorGain level sample_rate p =
      (compressorEnvDbTrace level sample_rate p).map
        (frameGain p.threshold_db p.ratio) ∧
    (∀ edb, p.threshold_db < edb → reductionDb p.threshold_db p.ratio edb ≤ 0) ∧
    ∀ g ∈ compressorGain level sample_rate p, g ≤ 1 := by
  have hmax : max 1 p.ratio = p.ratio := max_eq_right hra
  refine ⟨?_, ?_, ?_⟩
  · unfold compressorGain compressorEnvDbTrace
    rw [gainLoop_eq_map, hmax]
  · intro edb h
    exact reductionDb_nonpos _ _ _ hra h
  · intro g hg
    unfold compressorGain at hg
    rw [gainLoop_eq_map] at hg
    obtain ⟨edb, _, rfl⟩ := List.mem_map.mp hg
    exact frameGain_le_one _ _ _ (le_max_left 1 p.ratio)

/-- The engine parameters used by the C1 witness: threshold −18 dB,
ratio 1, attack 10 ms, release 120 ms. -/
noncomputable def sampleEngineParams : EngineParams :=
  { threshold_db := -18, ratio := 1, attack_ms := 10, release_ms := 120 }

/-- Witness for C1: a one-frame level sequence at full scale, 44100 Hz,
ratio 1. -/
theorem compressor_gain_formula_and_bound_witness :
    (1 : ℝ) ≤ sampleEngineParams.ratio ∧
    (compressorGain [1] 44100 sampleEngineParams =
      (compressorEnvDbTrace [1] 44100 sampleEngineParams).map
        (frameGain sampleEngineParams.threshold_db sampleEngineParams.ratio) ∧
    (∀ edb, sampleEngineParams.threshold_db < edb →
      reductionDb sampleEngineParams.threshold_db sampleEngineParams.ratio edb ≤ 0) ∧
    ∀ g ∈ compressorGain [1] 44100 sampleEngineParams, g ≤ 1) :=
  ⟨le_refl 1, compressor_gain_formula_and_bound [1] 44100 sampleEngineParams (le_refl 1)⟩
